import Mathlib

/-!
Verification development for the compose-resolution and signing-intent
negotiation engine of atomic-reactor (plugins/resolve_composes.py).

The Python module is shallowly embedded: dictionaries become association
lists with unique keys, Python sets become finsets, datetimes become
integer seconds, external collaborators (the ODCS client, the signing
intent catalog lookups, the koji session) become fields of an explicit
environment record, and exceptions become Except values.
-/

namespace ResolveComposes

/-- A signing intent from the catalog: a name, a list of trust keys and a
restrictiveness rank (odcs_config signing intents). -/
structure SigningIntent where
  name : String
  keys : List String
  restrictiveness : Int
  deriving DecidableEq, Repr

/-- Value of the modular_koji_tags and module_resolve_tags configuration
keys, which in Python may be a boolean or a list of tag names. -/
inductive TagsVal where
  | bool : Bool → TagsVal
  | strs : List String → TagsVal
  deriving DecidableEq, Repr

/-- One compose record as reported by the ODCS service.  Fields the code
reads unconditionally are plain; fields the code guards with get or a
KeyError handler are Option.  time_to_expire is in integer seconds
(the Python code parses an ISO timestamp and compares second counts). -/
structure ComposeInfo where
  id : Nat
  state_name : String
  time_to_expire : Int
  sigkeys : Option String
  arches : Option String
  result_repofile : String
  source_type : Nat
  deriving DecidableEq, Repr

/-- The compose section of container.yaml (the data argument of
ComposeConfig).  A missing key is none or an empty list or false,
matching data.get defaults in the source. -/
structure ComposeData where
  packages : Option (List String) := none
  modules : List String := []
  modular_koji_tags : Option TagsVal := none
  module_resolve_tags : Option TagsVal := none
  pulp_repos : Bool := false
  include_unpublished_pulp_repos : Bool := false
  ignore_absent_pulp_repos : Bool := false
  build_only_content_sets : List (String × List String) := []
  multilib_arches : List String := []
  multilib_method : Option String := none
  signing_intent : Option String := none
  deriving DecidableEq, Repr

/-- Python str.split with no separator: split on whitespace, dropping
empty fragments.  Defined by structural recursion on the character list
so that concrete instances evaluate inside the kernel. -/
def splitWSAux : List Char → List Char → List String
  | [], acc => if acc.isEmpty then [] else [String.mk acc.reverse]
  | c :: rest, acc =>
    if c.isWhitespace then
      (if acc.isEmpty then splitWSAux rest [] else String.mk acc.reverse :: splitWSAux rest [])
    else splitWSAux rest (c :: acc)

/-- Python s.split() for a string s. -/
def pySplit (s : String) : List String := splitWSAux s.data []

/-- Python compose_info.get with a string default followed by split:
none (missing key) behaves like the empty string. -/
def pySplitOpt : Option String → List String
  | none => []
  | some s => pySplit s

/-- Python truthiness of an optional string (None and the empty string
are falsy). -/
def pyTruthyStrOpt : Option String → Bool
  | none => false
  | some s => s != ""

/-- Python truthiness of a modular-tags value: None and False and the
empty list are falsy. -/
def tagsTruthy : Option TagsVal → Bool
  | none => false
  | some (TagsVal.bool b) => b
  | some (TagsVal.strs l) => !l.isEmpty

/-- The list stored in a modular-tags value (empty for None or a
boolean). -/
def tagsList : Option TagsVal → List String
  | some (TagsVal.strs l) => l
  | _ => []

/-- Python min(x, xs..., key = f): the first element of the iterable
whose key is minimal.  Python only replaces the current best when the
key is strictly smaller. -/
def pyMinBy {α : Type} (f : α → Int) (x : α) (xs : List α) : α :=
  xs.foldl (fun acc y => if f y < f acc then y else acc) x

/-- Python min(list, key = f) on a possibly empty list: none models the
ValueError raised on an empty sequence. -/
def pyMinList {α : Type} (f : α → Int) : List α → Option α
  | [] => none
  | x :: xs => some (pyMinBy f x xs)

theorem pyMinBy_le {α : Type} (f : α → Int) :
    ∀ (xs : List α) (x : α), ∀ y ∈ x :: xs, f (pyMinBy f x xs) ≤ f y := by
  intro xs
  induction xs with
  | nil =>
    intro x y hy
    rcases List.mem_cons.mp hy with h | h
    · subst h; exact le_refl _
    · cases h
  | cons z zs ih =>
    intro x y hy
    have step : pyMinBy f x (z :: zs) = pyMinBy f (if f z < f x then z else x) zs := rfl
    have hbest : f (pyMinBy f (if f z < f x then z else x) zs)
        ≤ f (if f z < f x then z else x) :=
      ih (if f z < f x then z else x) _ (List.mem_cons_self _ _)
    rcases List.mem_cons.mp hy with h | h
    · rw [h, step]
      refine le_trans hbest ?_
      by_cases hc : f z < f x
      · rw [if_pos hc]
        exact le_of_lt hc
      · rw [if_neg hc]
    · rcases List.mem_cons.mp h with h2 | h2
      · rw [h2, step]
        refine le_trans hbest ?_
        by_cases hc : f z < f x
        · rw [if_pos hc]
        · rw [if_neg hc]
          exact le_of_not_lt hc
      · rw [step]
        exact ih _ y (List.mem_cons_of_mem _ h2)

theorem pyMinList_le {α : Type} (f : α → Int) (l : List α) (m : α)
    (h : pyMinList f l = some m) : ∀ y ∈ l, f m ≤ f y := by
  cases l with
  | nil => cases h
  | cons x xs =>
    have hm : pyMinBy f x xs = m := by
      simpa [pyMinList] using h
    intro y hy
    rw [← hm]
    exact pyMinBy_le f xs x y hy

/-- Insertion-ordered dictionary (a Python dict): update the value of an
existing key in place, otherwise append the new binding at the end. -/
def setKey {β : Type} (m : List (String × β)) (k : String) (v : β) : List (String × β) :=
  if m.any (fun kv => kv.1 == k) then
    m.map (fun kv => if kv.1 == k then (kv.1, v) else kv)
  else m ++ [(k, v)]

/-- Keys of a dictionary, in insertion order. -/
def keysOf {β : Type} (m : List (String × β)) : List String := m.map Prod.fst

theorem beqString_symm_false (a b : String) (h : (a == b) = false) : (b == a) = false := by
  cases h2 : b == a
  · rfl
  · rw [eq_of_beq h2] at h
    simp at h

theorem lookup_of_any_eq_false {β : Type} (m : List (String × β)) (k : String)
    (h : m.any (fun kv => kv.1 == k) = false) : List.lookup k m = none := by
  induction m with
  | nil => rfl
  | cons kv rest ih =>
    rw [List.any_cons, Bool.or_eq_false_iff] at h
    cases kv with
    | mk k1 v1 =>
      have hk : (k == k1) = false := beqString_symm_false k1 k h.1
      rw [List.lookup_cons]
      simp only [hk]
      exact ih h.2

theorem lookup_append_right_single {β : Type} (m : List (String × β)) (k : String) (v : β)
    (h : List.lookup k m = none) : List.lookup k (m ++ [(k, v)]) = some v := by
  induction m with
  | nil => simp [List.lookup]
  | cons kv rest ih =>
    cases kv with
    | mk k1 v1 =>
      rw [List.lookup_cons] at h
      rw [List.cons_append, List.lookup_cons]
      cases h3 : k == k1
      · rw [h3] at h
        exact ih h
      · rw [h3] at h
        exact absurd h (by simp)

theorem lookup_map_set {β : Type} (m : List (String × β)) (k : String) (v : β) :
    List.lookup k (m.map fun kv => if kv.1 == k then (kv.1, v) else kv)
      = (List.lookup k m).map (fun _ => v) := by
  induction m with
  | nil => rfl
  | cons kv rest ih =>
    cases kv with
    | mk k1 v1 =>
      rw [List.map_cons]
      cases h3 : (k1 == k) with
      | true =>
        have h4 : (k == k1) = true := by rw [eq_of_beq h3]; simp
        simp only [if_pos rfl, h3, if_true]
        rw [List.lookup_cons, List.lookup_cons]
        simp [h4]
      | false =>
        have h4 : (k == k1) = false := beqString_symm_false k1 k h3
        simp only [h3, Bool.false_eq_true, if_false]
        rw [List.lookup_cons, List.lookup_cons]
        simp only [h4]
        exact ih

theorem lookup_map_set_other {β : Type} (m : List (String × β)) (k k' : String) (v : β)
    (hne : k' ≠ k) :
    List.lookup k' (m.map fun kv => if kv.1 == k then (kv.1, v) else kv)
      = List.lookup k' m := by
  induction m with
  | nil => rfl
  | cons kv rest ih =>
    cases kv with
    | mk k1 v1 =>
      rw [List.map_cons]
      cases h3 : (k1 == k) with
      | true =>
        have h4 : (k' == k1) = false := by
          cases h5 : k' == k1
          · rfl
          · exact absurd (by rw [eq_of_beq h5, eq_of_beq h3]) hne
        simp only [h3, if_true]
        rw [List.lookup_cons, List.lookup_cons]
        simp only [h4]
        exact ih
      | false =>
        simp only [h3, Bool.false_eq_true, if_false]
        rw [List.lookup_cons, List.lookup_cons]
        cases h4 : k' == k1
        · exact ih
        · rfl

theorem lookup_isSome_of_any {β : Type} (m : List (String × β)) (k : String)
    (h : m.any (fun kv => kv.1 == k) = true) : ∃ w, List.lookup k m = some w := by
  induction m with
  | nil => cases h
  | cons kv rest ih =>
    cases kv with
    | mk k1 v1 =>
      rw [List.lookup_cons]
      cases h3 : (k == k1) with
      | true => exact ⟨v1, rfl⟩
      | false =>
        have h4 : (k1 == k) = false := beqString_symm_false k k1 h3
        rw [List.any_cons] at h
        simp only [h4, Bool.false_or] at h
        exact ih h

theorem lookup_setKey_self {β : Type} (m : List (String × β)) (k : String) (v : β) :
    List.lookup k (setKey m k v) = some v := by
  unfold setKey
  cases hany : m.any (fun kv => kv.1 == k) with
  | false =>
    simp only [Bool.false_eq_true, if_false]
    exact lookup_append_right_single m k v (lookup_of_any_eq_false m k hany)
  | true =>
    simp only [if_true]
    rcases lookup_isSome_of_any m k hany with ⟨w, hw⟩
    rw [lookup_map_set, hw]
    rfl

theorem lookup_setKey_other {β : Type} (m : List (String × β)) (k k' : String) (v : β)
    (hne : k' ≠ k) : List.lookup k' (setKey m k v) = List.lookup k' m := by
  unfold setKey
  cases hany : m.any (fun kv => kv.1 == k) with
  | false =>
    simp only [Bool.false_eq_true, if_false]
    induction m with
    | nil =>
      have h4 : (k' == k) = false := by
        cases h5 : k' == k
        · rfl
        · exact absurd (eq_of_beq h5) hne
      simp [List.lookup, h4]
    | cons kv rest ih =>
      cases kv with
      | mk k1 v1 =>
        rw [List.cons_append, List.lookup_cons, List.lookup_cons]
        cases h3 : k' == k1
        · rw [List.any_cons, Bool.or_eq_false_iff] at hany
          exact ih hany.2
        · rfl
  | true =>
    simp only [if_true]
    exact lookup_map_set_other m k k' v hne

theorem keysOf_setKey_mem {β : Type} (m : List (String × β)) (k k' : String) (v : β)
    (h : k' ∈ keysOf (setKey m k v)) : k' ∈ keysOf m ∨ k' = k := by
  unfold setKey at h
  cases hany : m.any (fun kv => kv.1 == k) with
  | false =>
    rw [hany] at h
    simp only [Bool.false_eq_true, if_false] at h
    unfold keysOf at h ⊢
    rw [List.map_append, List.mem_append] at h
    rcases h with h | h
    · exact Or.inl h
    · simp at h
      exact Or.inr h
  | true =>
    rw [hany] at h
    simp only [if_true] at h
    unfold keysOf at h ⊢
    rw [List.map_map] at h
    left
    have : ((fun kv : String × β => kv.1) ∘ fun kv : String × β =>
        if kv.1 == k then (kv.1, v) else kv) = fun kv : String × β => kv.1 := by
      funext kv
      by_cases hc : (kv.1 == k) = true
      · simp [Function.comp, hc]
      · simp [Function.comp, hc]
    rw [this] at h
    exact h

theorem keysOf_setKey_self {β : Type} (m : List (String × β)) (k : String) (v : β) :
    k ∈ keysOf (setKey m k v) := by
  unfold setKey
  cases hany : m.any (fun kv => kv.1 == k) with
  | false =>
    simp only [Bool.false_eq_true, if_false]
    unfold keysOf
    rw [List.map_append, List.mem_append]
    right
    simp
  | true =>
    simp only [if_true]
    rw [List.any_eq_true] at hany
    rcases hany with ⟨kv, hmem, hkv⟩
    unfold keysOf
    rw [List.mem_map]
    refine ⟨(kv.1, v), ?_, eq_of_beq hkv⟩
    rw [List.mem_map]
    exact ⟨kv, hmem, by rw [if_pos hkv]⟩

/-- MINIMUM_TIME_TO_EXPIRE = timedelta(hours = 2).total_seconds(), in
whole seconds. -/
def MINIMUM_TIME_TO_EXPIRE : Int := 7200

/-- One rendered ODCS compose request.  Keys the source only sometimes
inserts into the request dict are Option fields (none means the key is
absent). -/
structure ComposeRequest where
  source_type : String
  source : Option String := none
  packages : Option (List String) := none
  sigkeys : List String := []
  arches : Option (List String) := none
  multilib_arches : Option (List String) := none
  multilib_method : Option (Option String) := none
  modular_koji_tags : Option (List String) := none
  flags : Option (List String) := none
  deriving DecidableEq, Repr

/-- External collaborators and ambient state of one plugin run: the
signing intent catalog lookups of odcs_config, the ODCS client
operations, the osbs ModuleSpec profile stripping, the current time and
the minimum_time_to_expire plugin parameter.  waitForCompose returns an
error on WaitComposeToFinishTimeout. -/
structure Env where
  defaultSigningIntent : String
  getSigningIntentByName : String → SigningIntent
  getSigningIntentByKeys : List String → SigningIntent
  startCompose : ComposeRequest → ComposeInfo
  waitForCompose : Nat → Except Unit ComposeInfo
  renewCompose : Nat → List String → ComposeInfo
  getComposeStatus : Nat → String
  moduleSpecNoProfile : String → String
  now : Int
  minimumTimeToExpire : Int

/-- The ComposeConfig aggregate, as built by ComposeConfig.__init__.
The pulp mapping holds per-architecture content sets; Python stores a
list before build_only_content_sets are merged and a set afterwards, and
only membership is ever observed, so both are modeled as finsets. -/
structure ComposeConfig where
  use_packages : Bool
  packages : List String
  modules : List String
  pulp : List (String × Finset String)
  arches : List String
  multilib_arches : List String
  multilib_method : Option String
  modular_tags : Option TagsVal
  module_resolve_tags : Option TagsVal
  koji_tag : Option String
  flags : List String
  signing_intent : SigningIntent
  original_signing_intent_name : String
  deriving DecidableEq

/-- Expansion of a boolean-true modular-tags value into the one-element
list holding the koji tag; a ValueError when no koji tag is available. -/
def expandTags (tags : Option TagsVal) (kojiTag : Option String) (errMsg : String) :
    Except String (Option TagsVal) :=
  match tags with
  | some (TagsVal.bool true) =>
    if pyTruthyStrOpt kojiTag then
      Except.ok (some (TagsVal.strs [kojiTag.getD ("")]))
    else Except.error errMsg
  | v => Except.ok v

/-- The initial pulp mapping: pulp_data entries filtered to the
requested architectures. -/
def pulpFromData (pulpData : List (String × List String)) (arches : List String) :
    List (String × Finset String) :=
  pulpData.foldl
    (fun p kv => if kv.1 ∈ arches then setKey p kv.1 kv.2.toFinset else p) []

/-- The build_only_content_sets pass: for every configured architecture,
union the listed content sets into that architecture's entry.  Note that
the architectures here are not filtered against the requested set. -/
def applyBuildOnlyContentSets (bocs : List (String × List String))
    (p0 : List (String × Finset String)) : List (String × Finset String) :=
  bocs.foldl
    (fun p kv => setKey p kv.1 (kv.2.toFinset ∪ ((List.lookup kv.1 p).getD ∅))) p0

/-- The pulp mapping of a ComposeConfig: empty unless pulp_repos is
enabled, otherwise the filtered pulp_data with build_only_content_sets
unioned in. -/
def buildPulp (data : ComposeData) (pulpData : List (String × List String))
    (arches : List String) : List (String × Finset String) :=
  if data.pulp_repos then
    applyBuildOnlyContentSets data.build_only_content_sets (pulpFromData pulpData arches)
  else []

/-- The ODCS flags recorded when pulp_repos is enabled. -/
def buildFlags (data : ComposeData) : List String :=
  if data.pulp_repos then
    (if data.include_unpublished_pulp_repos then [("include_unpublished_pulp_repos")] else [])
      ++ (if data.ignore_absent_pulp_repos then [("ignore_absent_pulp_repos")] else [])
  else []

/-- ComposeConfig.__init__: an error models the ValueError raised when a
boolean-true modular-tags key has no koji tag to expand to. -/
def ComposeConfig.make (env : Env) (dataOpt : Option ComposeData)
    (pulpData : List (String × List String)) (kojiTag : Option String)
    (arches : List String) : Except String ComposeConfig := do
  let data := dataOpt.getD {}
  let modularTags ← expandTags data.modular_koji_tags kojiTag
    ("koji_tag is required when modular_koji_tags is True")
  let moduleResolveTags ← expandTags data.module_resolve_tags kojiTag
    ("koji_tag is required when module_resolve_tags is True")
  let multilibArches := data.multilib_arches.filter (fun a => a ∈ arches)
  let signingName := data.signing_intent.getD env.defaultSigningIntent
  Except.ok {
    use_packages := data.packages.isSome
    packages := data.packages.getD []
    modules := data.modules
    pulp := buildPulp data pulpData arches
    arches := arches
    multilib_arches := multilibArches
    multilib_method := if !multilibArches.isEmpty then data.multilib_method else none
    modular_tags := modularTags
    module_resolve_tags := moduleResolveTags
    koji_tag := kojiTag
    flags := buildFlags data
    signing_intent := env.getSigningIntentByName signingName
    original_signing_intent_name := signingName
  }

/-- ComposeConfig.set_signing_intent: look the name up in the catalog
and store the result. -/
def ComposeConfig.setSigningIntent (cc : ComposeConfig) (env : Env) (name : String) :
    ComposeConfig :=
  { cc with signing_intent := env.getSigningIntentByName name }

/-- ComposeConfig.has_signing_intent_changed. -/
def hasSigningIntentChanged (cc : ComposeConfig) : Bool :=
  cc.signing_intent.name != cc.original_signing_intent_name

/-- ComposeConfig.validate_for_request: an error when there is nothing
to compose, or when packages are configured without a koji tag. -/
def validateForRequest (cc : ComposeConfig) : Except String Unit :=
  if !cc.use_packages && cc.modules.isEmpty && cc.pulp.isEmpty
      && !tagsTruthy cc.modular_tags then
    Except.error ("Nothing to compose (no packages, modules, modular_tags or enabled pulp repos)")
  else if !cc.packages.isEmpty && !pyTruthyStrOpt cc.koji_tag then
    Except.error ("koji_tag is required when packages are used")
  else Except.ok ()

/-- ComposeConfig.render_packages_request. -/
def renderPackagesRequest (cc : ComposeConfig) : ComposeRequest :=
  { source_type := ("tag")
    source := cc.koji_tag
    packages := some cc.packages
    sigkeys := cc.signing_intent.keys
    arches := if !cc.arches.isEmpty then some cc.arches else none
    multilib_arches := if !cc.multilib_arches.isEmpty then some cc.multilib_arches else none
    multilib_method := if !cc.multilib_arches.isEmpty then some cc.multilib_method else none }

/-- ComposeConfig.render_modular_tags_request. -/
def renderModularTagsRequest (cc : ComposeConfig) : ComposeRequest :=
  { source_type := ("tag")
    source := cc.koji_tag
    sigkeys := cc.signing_intent.keys
    modular_koji_tags := some (tagsList cc.modular_tags)
    arches := if !cc.arches.isEmpty then some cc.arches else none
    multilib_arches := if !cc.multilib_arches.isEmpty then some cc.multilib_arches else none
    multilib_method := if !cc.multilib_arches.isEmpty then some cc.multilib_method else none }

/-- ComposeConfig.render_modules_request: module specs are joined after
stripping profiles. -/
def renderModulesRequest (env : Env) (cc : ComposeConfig) : ComposeRequest :=
  { source_type := ("module")
    source := some (String.intercalate (" ") (cc.modules.map env.moduleSpecNoProfile))
    sigkeys := cc.signing_intent.keys
    modular_koji_tags :=
      if tagsTruthy cc.module_resolve_tags then some (tagsList cc.module_resolve_tags) else none
    arches := if !cc.arches.isEmpty then some cc.arches else none }

/-- ComposeConfig.render_pulp_request for one architecture. -/
def renderPulpRequest (cc : ComposeConfig) (arch : String) : ComposeRequest :=
  { source_type := ("pulp")
    source := some (String.intercalate (" ")
      (Finset.sort (fun a b => a ≤ b) ((List.lookup arch cc.pulp).getD ∅)))
    sigkeys := []
    flags := some cc.flags
    arches := some [arch]
    multilib_arches := if cc.multilib_arches.contains arch then some [arch] else none
    multilib_method := if cc.multilib_arches.contains arch then some cc.multilib_method else none }

/-- ComposeConfig.render_requests: validate, then emit the requests in
the fixed source order. -/
def renderRequests (env : Env) (cc : ComposeConfig) : Except String (List ComposeRequest) := do
  _ ← validateForRequest cc
  let base :=
    (if cc.use_packages then [renderPackagesRequest cc] else [])
      ++ (if !cc.modules.isEmpty then [renderModulesRequest env cc] else [])
      ++ (if tagsTruthy cc.modular_tags then [renderModularTagsRequest cc] else [])
  Except.ok (base ++ cc.pulp.map (fun kv => renderPulpRequest cc kv.1))

/-- The candidate chosen by min(parent, current, key = restrictiveness)
in adjust_signing_intent_from_parent. -/
def newIntentFromParent (parent current : SigningIntent) : SigningIntent :=
  pyMinBy (fun x => x.restrictiveness) parent [current]

/-- adjust_signing_intent_from_parent, once a parent signing intent has
been resolved: keep the current intent when the minimum equals it,
otherwise set the minimum by name. -/
def adjustSigningIntentFromParent (env : Env) (cc : ComposeConfig) (parent : SigningIntent) :
    ComposeConfig :=
  let newSI := newIntentFromParent parent cc.signing_intent
  if newSI = cc.signing_intent then cc else cc.setSigningIntent env newSI.name

/-- The signing intent selected by resolve_signing_intent: the least
restrictive among the intents looked up from every compose's observed
sigkeys, plus the parent intent when one was carried forward. -/
def resolveSelectedIntent (env : Env) (cis : List ComposeInfo)
    (parent : Option SigningIntent) : Option SigningIntent :=
  pyMinList (fun x => x.restrictiveness)
    (cis.map (fun ci => env.getSigningIntentByKeys (pySplitOpt ci.sigkeys)) ++ parent.toList)

/-- resolve_signing_intent: select the least restrictive intent and set
it on the compose config; an error models the ValueError of min on an
empty sequence. -/
def resolveSigningIntent (env : Env) (cc : ComposeConfig) (cis : List ComposeInfo)
    (parent : Option SigningIntent) : Except String ComposeConfig :=
  match resolveSelectedIntent env cis parent with
  | none => Except.error ("min() arg is an empty sequence")
  | some si => Except.ok (cc.setSigningIntent env si.name)

/-- _needs_renewal: the compose was removed, or expires within
minimum_time_to_expire seconds of now. -/
def needsRenewal (env : Env) (ci : ComposeInfo) : Bool :=
  ci.state_name == ("removed")
    || decide (ci.time_to_expire - env.now ≤ env.minimumTimeToExpire)

/-- Equality of two key lists as Python sets. -/
def sameKeySet (a b : List String) : Bool :=
  a.all (fun k => b.contains k) && b.all (fun k => a.contains k)

/-- The sigkeys passed to renew_compose: the compose's observed keys,
replaced by the catalog's fresher key list when the two differ as
sets (sigkeys deprecation). -/
def renewedSigkeys (env : Env) (ci : ComposeInfo) : List String :=
  let sigkeys := pySplit (ci.sigkeys.getD (""))
  let upd := env.getSigningIntentByKeys sigkeys
  if sameKeySet sigkeys upd.keys then sigkeys else upd.keys

/-- The body of the wait_for_composes loop for one tracked compose id:
wait, renew when needed (waiting again on the renewed id), and return
the compose info to record together with the ids newly created by
renewal.  A timeout (either wait) carries the ids created so far. -/
def processOne (env : Env) (cid : Nat) : Except (List Nat) (ComposeInfo × List Nat) :=
  match env.waitForCompose cid with
  | Except.error _ => Except.error []
  | Except.ok ci =>
    if needsRenewal env ci then
      let ci2 := env.renewCompose cid (renewedSigkeys env ci)
      match env.waitForCompose ci2.id with
      | Except.error _ => Except.error [ci2.id]
      | Except.ok ci3 => Except.ok (ci3, [ci2.id])
    else Except.ok (ci, [])

/-- The wait_for_composes loop over the tracked id list, returning the
collected compose infos and the ids appended to new_compose_ids; a
timeout carries the ids appended before it fired. -/
def waitGo (env : Env) : List Nat → Except (List Nat) (List ComposeInfo × List Nat)
  | [] => Except.ok ([], [])
  | cid :: rest =>
    match processOne env cid with
    | Except.error new1 => Except.error new1
    | Except.ok (ci, new1) =>
      match waitGo env rest with
      | Except.error new2 => Except.error (new1 ++ new2)
      | Except.ok (cis, new2) => Except.ok (ci :: cis, new1 ++ new2)

/-- wait_for_composes: run the loop, then rewrite all_compose_ids to the
ids of the collected compose infos.  The ok value is (composes_info,
rewritten all_compose_ids, ids appended to new_compose_ids). -/
def waitForComposes (env : Env) (allIds : List Nat) :
    Except (List Nat) (List ComposeInfo × List Nat × List Nat) :=
  match waitGo env allIds with
  | Except.error new => Except.error new
  | Except.ok (cis, new) => Except.ok (cis, cis.map (fun ci => ci.id), new)

/-- The per-architecture repo-URL mapping (the yum_repourls defaultdict
of lists). -/
abbrev RepoMap := List (String × List String)

/-- Value of a key of the defaultdict: the empty list when absent. -/
def lookupD (m : RepoMap) (k : String) : List String := (List.lookup k m).getD []

/-- defaultdict access plus append: self.yum_repourls[k].append(v). -/
def appendAt (m : RepoMap) (k : String) (v : String) : RepoMap :=
  setKey m k (lookupD m k ++ [v])

/-- defaultdict access plus extend: self.yum_repourls[k].extend(vs);
the key is created even when vs is empty. -/
def extendAt (m : RepoMap) (k : String) (vs : List String) : RepoMap :=
  setKey m k (lookupD m k ++ vs)

/-- First loop of forward_composes: append every compose's result
repofile to its declared arches, or to the synthetic noarch bucket when
no arches are declared. -/
def forwardPhase1 (cis : List ComposeInfo) : RepoMap :=
  cis.foldl
    (fun m ci =>
      match ci.arches with
      | none => appendAt m ("noarch") ci.result_repofile
      | some a => (pySplit a).foldl (fun m arch => appendAt m arch ci.result_repofile) m)
    []

/-- Last step of forward_composes: when a noarch bucket exists, pop it
and extend every remaining architecture's list with its contents. -/
def forwardFold (m : RepoMap) : RepoMap :=
  if m.any (fun kv => kv.1 == ("noarch")) then
    (m.filter (fun kv => kv.1 != ("noarch"))).map
      (fun kv => (kv.1, kv.2 ++ lookupD m ("noarch")))
  else m

/-- forward_composes: append every compose's result repofile to its
declared arches (or the synthetic noarch bucket), extend noarch with the
raw repourls, then fold the noarch bucket into every remaining
architecture and drop it. -/
def forwardComposes (cis : List ComposeInfo) (repourls : List String) : RepoMap :=
  forwardFold (extendAt (forwardPhase1 cis) ("noarch") repourls)

/-- Whether a compose applies to a platform: no declared arches, or the
platform among the split arches string. -/
def composeApplies (ci : ComposeInfo) (platform : String) : Bool :=
  match ci.arches with
  | none => true
  | some a => (pySplit a).contains platform

/-- has_complete_repos: true when any raw repourl was supplied, or when
some compose applicable to the platform is not of module source type
(source_type 2 is PungiSourceType.MODULE). -/
def hasCompleteRepos (repourls : List String) (cis : List ComposeInfo)
    (platform : String) : Bool :=
  if !repourls.isEmpty then true
  else cis.any (fun ci => composeApplies ci platform && ci.source_type != 2)

/-- The plugin result record (ResolveComposesResult). -/
structure ResolveComposesResult where
  composes : List ComposeInfo
  yum_repourls : RepoMap
  include_koji_repo : List (String × Bool)
  signing_intent : Option String
  signing_intent_overridden : Bool
  deriving DecidableEq, Repr

/-- make_result: signing intent fields stay empty when no ComposeConfig
was built (the skip path); include_koji_repo is the negation of
has_complete_repos per platform. -/
def makeResult (ccOpt : Option ComposeConfig) (cis : List ComposeInfo) (yum : RepoMap)
    (platforms repourls : List String) : ResolveComposesResult :=
  { composes := cis
    yum_repourls := yum
    include_koji_repo := platforms.map (fun p => (p, !hasCompleteRepos repourls cis p))
    signing_intent := ccOpt.map (fun cc => cc.signing_intent.name)
    signing_intent_overridden := (ccOpt.map hasSigningIntentChanged).getD false }

/-- Python sorted() on a list of strings (read_configs sorts the
platform set before building the ComposeConfig). -/
def sortStrings (l : List String) : List String :=
  List.insertionSort (fun a b => a ≤ b) l

/-- The run state as it stands when read_configs begins: platforms,
repourls and tracked compose ids (after any inheritance merge), the
plugin parameters, and the data read_configs consumes.  composeData is
none when the compose section is absent or empty (both falsy in the
source); parentSigningIntent is the parent's catalog intent when every
guard of adjust_signing_intent_from_parent passes, none otherwise. -/
structure RunInputs where
  platforms : List String := []
  repourls : List String := []
  composeIds : List Nat := []
  allComposeIds : List Nat := []
  odcsConfigPresent : Bool := true
  composeData : Option ComposeData := none
  pulpData : List (String × List String) := []
  kojiTag : Option String := none
  signingIntentParam : Option String := none
  parentSigningIntent : Option SigningIntent := none

/-- Observable outcome of one run: a normal result, a re-raised wait
timeout carrying the compose ids that were canceled, or a fatal
error. -/
inductive RunOutcome where
  | ok : ResolveComposesResult → RunOutcome
  | timeout : List Nat → RunOutcome
  | error : String → RunOutcome
  deriving DecidableEq

/-- The cancellation pass of run's timeout handler: of the given
new_compose_ids, exactly those whose reported status is wait or
generating are canceled. -/
def cancelList (env : Env) (newIds : List Nat) : List Nat :=
  newIds.filter (fun cid =>
    env.getComposeStatus cid == ("wait") || env.getComposeStatus cid == ("generating"))

/-- The skip path's yum_repourls: every requested platform's bucket is
extended with the raw repourls. -/
def skipYum (platforms repourls : List String) : RepoMap :=
  platforms.foldl (fun m p => extendAt m p repourls) []

/-- adjust_compose_config: apply the signing_intent plugin parameter,
then the parent downgrade. -/
def adjustComposeConfig (env : Env) (signingIntentParam : Option String)
    (parent : Option SigningIntent) (cc : ComposeConfig) : ComposeConfig :=
  let cc := if pyTruthyStrOpt signingIntentParam then
      cc.setSigningIntent env (signingIntentParam.getD (""))
    else cc
  match parent with
  | some p => adjustSigningIntentFromParent env cc p
  | none => cc

/-- request_compose_if_needed: skip when explicit compose ids were given
or no compose section exists; otherwise validate, render, start each
request and record the returned ids.  Returns the extended tracked id
list and the newly created ids. -/
def requestComposeIfNeeded (env : Env) (composeIds : List Nat)
    (composeData : Option ComposeData) (cc : ComposeConfig) (allIds : List Nat) :
    Except String (List Nat × List Nat) :=
  if !composeIds.isEmpty then Except.ok (allIds, [])
  else if composeData.isNone then Except.ok (allIds, [])
  else
    match renderRequests env cc with
    | Except.error e => Except.error e
    | Except.ok reqs =>
      let newIds := reqs.map (fun rq => (env.startCompose rq).id)
      Except.ok (allIds ++ newIds, newIds)

/-- The tail of run from the wait phase on: wait for all tracked
composes (on timeout, cancel this run's in-flight new composes and
re-raise), then resolve the signing intent, forward the composes and
build the result. -/
def runFromWait (env : Env) (inp : RunInputs) (cc : ComposeConfig)
    (allIds newIds : List Nat) : RunOutcome :=
  match waitForComposes env allIds with
  | Except.error appended => RunOutcome.timeout (cancelList env (newIds ++ appended))
  | Except.ok (cis, _allIds2, _appended) =>
    match resolveSigningIntent env cc cis inp.parentSigningIntent with
    | Except.error e => RunOutcome.error e
    | Except.ok cc2 =>
      RunOutcome.ok
        (makeResult (some cc2) cis (forwardComposes cis inp.repourls) inp.platforms inp.repourls)

/-- run: the skip conditions of read_configs short-circuit to a
pass-through result built without a ComposeConfig; otherwise the config
is built and adjusted, composes are requested if needed, and the wait
tail runs. -/
def run (env : Env) (inp : RunInputs) : RunOutcome :=
  if !inp.odcsConfigPresent || (inp.composeData.isNone && inp.allComposeIds.isEmpty) then
    RunOutcome.ok
      (makeResult none [] (skipYum inp.platforms inp.repourls) inp.platforms inp.repourls)
  else
    match ComposeConfig.make env inp.composeData inp.pulpData inp.kojiTag
        (sortStrings inp.platforms) with
    | Except.error e => RunOutcome.error e
    | Except.ok cc0 =>
      let cc := adjustComposeConfig env inp.signingIntentParam inp.parentSigningIntent cc0
      match requestComposeIfNeeded env inp.composeIds inp.composeData cc inp.allComposeIds with
      | Except.error e => RunOutcome.error e
      | Except.ok (allIds, newIds) => runFromWait env inp cc allIds newIds

/-- adjust_for_inherit's merge of a current id or URL list with the
parent's: Python set union materialized back into a list.  A Python set
enumerates in unspecified order, so any duplicate-free enumeration of
the union is a faithful model; this one keeps first occurrences. -/
def mergeInherited {α : Type} [DecidableEq α] (current parent : List α) : List α :=
  (current ++ parent).dedup

theorem lookup_map_pair {β : Type} (l : List String) (g : String → β) (p : String)
    (hp : p ∈ l) : List.lookup p (l.map fun q => (q, g q)) = some (g p) := by
  induction l with
  | nil => cases hp
  | cons q rest ih =>
    rw [List.map_cons, List.lookup_cons]
    cases h3 : (p == q) with
    | true => rw [eq_of_beq h3]
    | false =>
      apply ih
      rcases List.mem_cons.mp hp with h | h
      · rw [h] at h3
        simp at h3
      · exact h

/-- C1: with a parent signing intent present, the intent computed by
adjust_signing_intent_from_parent is min(parent, current) by
restrictiveness and is stored on the config (when the catalog lookup by
that name is consistent), and the intent selected by
resolve_signing_intent, whose candidate list includes the parent intent,
never has restrictiveness above the parent's. -/
theorem signing_intent_never_exceeds_parent (env : Env) (cc : ComposeConfig)
    (parent : SigningIntent) (cis : List ComposeInfo) (si : SigningIntent)
    (hcat : env.getSigningIntentByName (newIntentFromParent parent cc.signing_intent).name
      = newIntentFromParent parent cc.signing_intent)
    (hres : resolveSelectedIntent env cis (some parent) = some si) :
    (adjustSigningIntentFromParent env cc parent).signing_intent
        = newIntentFromParent parent cc.signing_intent
      ∧ (newIntentFromParent parent cc.signing_intent).restrictiveness
          ≤ parent.restrictiveness
      ∧ si.restrictiveness ≤ parent.restrictiveness := by
  refine ⟨?_, ?_, ?_⟩
  · unfold adjustSigningIntentFromParent
    by_cases h : newIntentFromParent parent cc.signing_intent = cc.signing_intent
    · rw [if_pos h, h]
    · rw [if_neg h]
      unfold ComposeConfig.setSigningIntent
      exact hcat
  · exact pyMinBy_le (fun x => x.restrictiveness) [cc.signing_intent] parent parent
      (List.mem_cons_self _ _)
  · unfold resolveSelectedIntent at hres
    refine pyMinList_le (fun x => x.restrictiveness) _ si hres parent ?_
    rw [List.mem_append]
    right
    simp [Option.toList]

/-- C1 witness: a concrete catalog, parent and config instantiate the
theorem. -/
def si0 : SigningIntent := ⟨("release"), [("k1")], 0⟩

def envBase : Env :=
  { defaultSigningIntent := ("release")
    getSigningIntentByName := fun _ => si0
    getSigningIntentByKeys := fun _ => si0
    startCompose := fun _ => ⟨9, ("done"), 100000, none, none, ("f"), 1⟩
    waitForCompose := fun cid => Except.ok ⟨cid, ("done"), 100000, none, none, ("f"), 1⟩
    renewCompose := fun _ _ => ⟨42, ("wait"), 100000, none, none, ("f"), 1⟩
    getComposeStatus := fun _ => ("done")
    moduleSpecNoProfile := fun s => s
    now := 0
    minimumTimeToExpire := MINIMUM_TIME_TO_EXPIRE }

def ccBase : ComposeConfig :=
  { use_packages := false
    packages := []
    modules := []
    pulp := []
    arches := []
    multilib_arches := []
    multilib_method := none
    modular_tags := none
    module_resolve_tags := none
    koji_tag := none
    flags := []
    signing_intent := si0
    original_signing_intent_name := ("release") }

theorem signing_intent_never_exceeds_parent_witness :
    (adjustSigningIntentFromParent envBase ccBase si0).signing_intent
        = newIntentFromParent si0 ccBase.signing_intent
      ∧ (newIntentFromParent si0 ccBase.signing_intent).restrictiveness
          ≤ si0.restrictiveness
      ∧ si0.restrictiveness ≤ si0.restrictiveness :=
  signing_intent_never_exceeds_parent envBase ccBase si0 [] si0 (by decide) (by decide)

/-- C6: validate_for_request errors exactly when no compose source is
populated on the ComposeConfig (no packages key configured, no modules,
no enabled pulp repos, no modular tags) or when packages are requested
without a truthy koji tag. -/
theorem validate_for_request_iff (cc : ComposeConfig) :
    (∃ e, validateForRequest cc = Except.error e) ↔
      ((cc.use_packages = false ∧ cc.modules = [] ∧ cc.pulp = []
          ∧ tagsTruthy cc.modular_tags = false)
        ∨ (cc.packages ≠ [] ∧ pyTruthyStrOpt cc.koji_tag = false)) := by
  unfold validateForRequest
  by_cases h1 : (!cc.use_packages && cc.modules.isEmpty && cc.pulp.isEmpty
      && !tagsTruthy cc.modular_tags) = true
  · rw [if_pos h1]
    simp only [Bool.and_eq_true, Bool.not_eq_true'] at h1
    constructor
    · intro _
      left
      exact ⟨h1.1.1.1, List.isEmpty_iff.mp h1.1.1.2, List.isEmpty_iff.mp h1.1.2, h1.2⟩
    · intro _
      exact ⟨_, rfl⟩
  · rw [if_neg h1]
    by_cases h2 : (!cc.packages.isEmpty && !pyTruthyStrOpt cc.koji_tag) = true
    · rw [if_pos h2]
      simp only [Bool.and_eq_true, Bool.not_eq_true'] at h2
      constructor
      · intro _
        right
        refine ⟨?_, h2.2⟩
        intro hnil
        rw [hnil] at h2
        exact absurd h2.1 (by simp)
      · intro _
        exact ⟨_, rfl⟩
    · rw [if_neg h2]
      constructor
      · rintro ⟨e, he⟩
        cases he
      · intro h
        exfalso
        rcases h with h | h
        · apply h1
          simp only [Bool.and_eq_true, Bool.not_eq_true']
          exact ⟨⟨⟨h.1, List.isEmpty_iff.mpr h.2.1⟩, List.isEmpty_iff.mpr h.2.2.1⟩, h.2.2.2⟩
        · apply h2
          simp only [Bool.and_eq_true, Bool.not_eq_true']
          refine ⟨?_, h.2⟩
          cases hpe : cc.packages with
          | nil => exact absurd hpe h.1
          | cons a l => simp

/-- C7: the inheritance merge of ids or URLs is set union, produces no
duplicates, and applying it twice with the same parent data yields the
same set as applying it once (stated for the string URL instance and
the numeric compose id instance of the polymorphic merge). -/
theorem inherit_merge_idempotent (cur par : List String) (curN parN : List Nat) :
    (mergeInherited cur par).toFinset = cur.toFinset ∪ par.toFinset
      ∧ (mergeInherited cur par).Nodup
      ∧ (mergeInherited (mergeInherited cur par) par).toFinset
          = (mergeInherited cur par).toFinset
      ∧ (mergeInherited curN parN).toFinset = curN.toFinset ∪ parN.toFinset
      ∧ (mergeInherited curN parN).Nodup
      ∧ (mergeInherited (mergeInherited curN parN) parN).toFinset
          = (mergeInherited curN parN).toFinset := by
  have hset : ∀ (α : Type) (_ : DecidableEq α) (c p : List α),
      (mergeInherited c p).toFinset = c.toFinset ∪ p.toFinset := by
    intro α inst c p
    apply Finset.ext
    intro a
    simp [mergeInherited]
  have hnd : ∀ (α : Type) (_ : DecidableEq α) (c p : List α),
      (mergeInherited c p).Nodup := by
    intro α inst c p
    unfold mergeInherited
    exact List.nodup_dedup _
  have htwice : ∀ (α : Type) (_ : DecidableEq α) (c p : List α),
      (mergeInherited (mergeInherited c p) p).toFinset = (mergeInherited c p).toFinset := by
    intro α inst c p
    rw [hset α inst, hset α inst, Finset.union_assoc, Finset.union_self]
  exact ⟨hset _ _ cur par, hnd _ _ cur par, htwice _ _ cur par,
    hset _ _ curN parN, hnd _ _ curN parN, htwice _ _ curN parN⟩

/-- C5: a waited compose is renewed exactly when its reported state is
removed or it expires within minimum_time_to_expire seconds (default
7200, two hours); on renewal the renew call's new id is the one appended
to the newly created set and the renewed compose's waited info is what
gets recorded, and recording happens at the original id's loop
position. -/
theorem renewal_condition_and_replacement (env : Env) (cid : Nat) (ci : ComposeInfo)
    (h : env.waitForCompose cid = Except.ok ci) :
    MINIMUM_TIME_TO_EXPIRE = 7200
      ∧ (needsRenewal env ci = true ↔
          (ci.state_name = ("removed")
            ∨ ci.time_to_expire - env.now ≤ env.minimumTimeToExpire))
      ∧ (needsRenewal env ci = false → processOne env cid = Except.ok (ci, []))
      ∧ (∀ ci3, needsRenewal env ci = true →
          env.waitForCompose (env.renewCompose cid (renewedSigkeys env ci)).id
            = Except.ok ci3 →
          processOne env cid
            = Except.ok (ci3, [(env.renewCompose cid (renewedSigkeys env ci)).id]))
      ∧ (∀ rest ciRec new1 cis new2, processOne env cid = Except.ok (ciRec, new1) →
          waitGo env rest = Except.ok (cis, new2) →
          waitGo env (cid :: rest) = Except.ok (ciRec :: cis, new1 ++ new2)) := by
  refine ⟨rfl, ?_, ?_, ?_, ?_⟩
  · unfold needsRenewal
    rw [Bool.or_eq_true, beq_iff_eq, decide_eq_true_eq]
  · intro hno
    simp only [processOne, h, hno, Bool.false_eq_true, if_false]
  · intro ci3 hyes hwait
    simp only [processOne, h, hyes, if_true, hwait]
  · intro rest ciRec new1 cis new2 hp hrest
    unfold waitGo
    rw [hp, hrest]

/-- C5 witness: a compose reported removed is renewed, and the renewed
id's waited info replaces it. -/
def envRenew : Env :=
  { envBase with
    waitForCompose := fun cid =>
      if cid = 1 then Except.ok ⟨1, ("removed"), 100000, none, none, ("f"), 1⟩
      else Except.ok ⟨cid, ("done"), 100000, none, none, ("f"), 1⟩
    renewCompose := fun _ _ => ⟨2, ("wait"), 100000, none, none, ("f"), 1⟩ }

def ciRemoved : ComposeInfo := ⟨1, ("removed"), 100000, none, none, ("f"), 1⟩

theorem renewal_condition_and_replacement_witness :
    (needsRenewal envRenew ciRemoved = true ↔
        (ciRemoved.state_name = ("removed")
          ∨ ciRemoved.time_to_expire - envRenew.now ≤ envRenew.minimumTimeToExpire))
      ∧ processOne envRenew 1
          = Except.ok (⟨2, ("done"), 100000, none, none, ("f"), 1⟩,
              [(envRenew.renewCompose 1 (renewedSigkeys envRenew ciRemoved)).id]) :=
  ⟨(renewal_condition_and_replacement envRenew 1 ciRemoved rfl).2.1,
    (renewal_condition_and_replacement envRenew 1 ciRemoved rfl).2.2.2.1
      ⟨2, ("done"), 100000, none, none, ("f"), 1⟩ (by decide) rfl⟩

theorem waitGo_forall2 (env : Env) :
    ∀ (allIds : List Nat) (cis : List ComposeInfo) (new : List Nat),
      waitGo env allIds = Except.ok (cis, new) →
      List.Forall₂
        (fun cid ci => ∃ newPart, processOne env cid = Except.ok (ci, newPart)) allIds cis := by
  intro allIds
  induction allIds with
  | nil =>
    intro cis new h
    cases h
    exact List.Forall₂.nil
  | cons cid rest ih =>
    intro cis new h
    unfold waitGo at h
    cases hp : processOne env cid with
    | error new1 => rw [hp] at h; cases h
    | ok pr =>
      rw [hp] at h
      cases hrest : waitGo env rest with
      | error new2 => rw [hrest] at h; cases h
      | ok pr2 =>
        rw [hrest] at h
        cases h
        exact List.Forall₂.cons ⟨pr.2, by rw [hp]⟩ (ih pr2.1 pr2.2 hrest)

/-- C10: when wait_for_composes returns without a timeout, the compose
info collection pairs up with the pre-wait tracked id list position by
position (a renewed compose contributes its renewed info at the original
id's position), and the tracked id list is rewritten to exactly the ids
of those infos in order, so its length never changes. -/
theorem wait_preserves_position_and_rewrites_ids (env : Env) (allIds : List Nat)
    (cis : List ComposeInfo) (allIds2 newAppended : List Nat)
    (h : waitForComposes env allIds = Except.ok (cis, allIds2, newAppended)) :
    List.Forall₂
        (fun cid ci => ∃ newPart, processOne env cid = Except.ok (ci, newPart)) allIds cis
      ∧ allIds2 = cis.map (fun ci => ci.id)
      ∧ cis.length = allIds.length
      ∧ allIds2.length = allIds.length := by
  unfold waitForComposes at h
  cases hw : waitGo env allIds with
  | error new => rw [hw] at h; cases h
  | ok pr =>
    rw [hw] at h
    cases h
    have hf := waitGo_forall2 env allIds pr.1 pr.2 hw
    have hlen : allIds.length = pr.1.length := List.Forall₂.length_eq hf
    exact ⟨hf, rfl, hlen.symm, by rw [List.length_map]; exact hlen.symm⟩

/-- C10 witness: two tracked ids, no renewal. -/
theorem wait_preserves_position_witness :
    List.Forall₂
        (fun cid ci => ∃ newPart, processOne envBase cid = Except.ok (ci, newPart))
        [1, 2]
        [⟨1, ("done"), 100000, none, none, ("f"), 1⟩,
          ⟨2, ("done"), 100000, none, none, ("f"), 1⟩]
      ∧ [1, 2] = ([⟨1, ("done"), 100000, none, none, ("f"), 1⟩,
          ⟨2, ("done"), 100000, none, none, ("f"), 1⟩] : List ComposeInfo).map
            (fun ci => ci.id)
      ∧ ([⟨1, ("done"), 100000, none, none, ("f"), 1⟩,
          ⟨2, ("done"), 100000, none, none, ("f"), 1⟩] : List ComposeInfo).length
          = ([1, 2] : List Nat).length
      ∧ ([1, 2] : List Nat).length = ([1, 2] : List Nat).length :=
  wait_preserves_position_and_rewrites_ids envBase [1, 2]
    [⟨1, ("done"), 100000, none, none, ("f"), 1⟩,
      ⟨2, ("done"), 100000, none, none, ("f"), 1⟩] [1, 2] [] rfl

/-- C3: when the wait phase times out, run's handler cancels exactly the
ids of the newly created set whose reported status is wait or
generating, ids outside the newly created set are never canceled, and
the timeout is re-raised so the run yields no result. -/
theorem timeout_cancels_only_new_composes (env : Env) (inp : RunInputs)
    (cc : ComposeConfig) (allIds newIds appended : List Nat)
    (h : waitGo env allIds = Except.error appended) :
    runFromWait env inp cc allIds newIds
        = RunOutcome.timeout (cancelList env (newIds ++ appended))
      ∧ (∀ cid ∈ cancelList env (newIds ++ appended),
          cid ∈ newIds ++ appended
            ∧ (env.getComposeStatus cid = ("wait")
                ∨ env.getComposeStatus cid = ("generating")))
      ∧ (∀ cid ∈ newIds ++ appended,
          (env.getComposeStatus cid = ("wait")
              ∨ env.getComposeStatus cid = ("generating")) →
          cid ∈ cancelList env (newIds ++ appended))
      ∧ (∀ cid, cid ∉ newIds ++ appended → cid ∉ cancelList env (newIds ++ appended))
      ∧ (∀ r, runFromWait env inp cc allIds newIds ≠ RunOutcome.ok r) := by
  have hrw : runFromWait env inp cc allIds newIds
      = RunOutcome.timeout (cancelList env (newIds ++ appended)) := by
    unfold runFromWait waitForComposes
    rw [h]
  have hmem : ∀ cid, cid ∈ cancelList env (newIds ++ appended) ↔
      (cid ∈ newIds ++ appended
        ∧ (env.getComposeStatus cid = ("wait")
            ∨ env.getComposeStatus cid = ("generating"))) := by
    intro cid
    unfold cancelList
    rw [List.mem_filter, Bool.or_eq_true, beq_iff_eq, beq_iff_eq]
  refine ⟨hrw, ?_, ?_, ?_, ?_⟩
  · intro cid hc
    exact (hmem cid).mp hc
  · intro cid hin hst
    exact (hmem cid).mpr ⟨hin, hst⟩
  · intro cid hnin hc
    exact hnin ((hmem cid).mp hc).1
  · intro r hr
    rw [hrw] at hr
    cases hr

/-- C3 witness: every wait call times out; the one newly created id in
wait state is canceled. -/
def envTimeout : Env :=
  { envBase with
    waitForCompose := fun _ => Except.error ()
    getComposeStatus := fun _ => ("wait") }

theorem timeout_cancels_only_new_composes_witness :
    runFromWait envTimeout {} ccBase [7] [7]
        = RunOutcome.timeout (cancelList envTimeout ([7] ++ []))
      ∧ (7 ∈ cancelList envTimeout ([7] ++ [])) :=
  ⟨(timeout_cancels_only_new_composes envTimeout {} ccBase [7] [7] [] rfl).1,
    (timeout_cancels_only_new_composes envTimeout {} ccBase [7] [7] [] rfl).2.2.1 7
      (by decide) (Or.inl rfl)⟩

theorem composeApplies_iff (ci : ComposeInfo) (p : String) :
    composeApplies ci p = true ↔
      (ci.arches = none ∨ ∃ a, ci.arches = some a ∧ p ∈ pySplit a) := by
  unfold composeApplies
  cases ha : ci.arches with
  | none =>
    simp
  | some a =>
    constructor
    · intro hc
      right
      exact ⟨a, rfl, by
        have := List.elem_iff.mp hc
        exact this⟩
    · intro hdis
      rcases hdis with h | ⟨a2, ha2, hmem⟩
      · cases h
      · cases ha2
        exact List.elem_iff.mpr hmem

/-- C4: include_koji_repo for a requested platform is the negation of
has_complete_repos, which holds exactly when a raw repo URL was supplied
or some compose applicable to the platform (arches missing or listing
the platform) has a source type other than module (2). -/
theorem include_koji_repo_iff (ccOpt : Option ComposeConfig) (cis : List ComposeInfo)
    (yum : RepoMap) (platforms repourls : List String) (p : String) (hp : p ∈ platforms) :
    List.lookup p (makeResult ccOpt cis yum platforms repourls).include_koji_repo
        = some (!hasCompleteRepos repourls cis p)
      ∧ (hasCompleteRepos repourls cis p = true ↔
          (repourls ≠ []
            ∨ ∃ ci ∈ cis,
                (ci.arches = none ∨ ∃ a, ci.arches = some a ∧ p ∈ pySplit a)
                  ∧ ci.source_type ≠ 2)) := by
  constructor
  · unfold makeResult
    exact lookup_map_pair platforms (fun q => !hasCompleteRepos repourls cis q) p hp
  · unfold hasCompleteRepos
    cases hr : repourls with
    | cons u us =>
      simp
    | nil =>
      simp only [List.isEmpty_nil, Bool.not_true, Bool.false_eq_true, if_false]
      rw [List.any_eq_true]
      constructor
      · rintro ⟨ci, hmem, hpred⟩
        rw [Bool.and_eq_true] at hpred
        right
        refine ⟨ci, hmem, (composeApplies_iff ci p).mp hpred.1, ?_⟩
        intro h2
        rw [h2] at hpred
        exact absurd hpred.2 (by simp)
      · rintro (h | ⟨ci, hmem, happ, hst⟩)
        · exact absurd rfl h
        · refine ⟨ci, hmem, ?_⟩
          rw [Bool.and_eq_true]
          exact ⟨(composeApplies_iff ci p).mpr happ, bne_iff_ne.mpr hst⟩

/-- C4 witness: one platform, no raw URLs, one arch-unspecified tag
compose makes the repos complete. -/
def ciTag : ComposeInfo := ⟨3, ("done"), 100000, none, none, ("rf"), 1⟩

theorem include_koji_repo_iff_witness :
    List.lookup ("x86_64")
        (makeResult none [ciTag] [] [("x86_64")] []).include_koji_repo
        = some (!hasCompleteRepos [] [ciTag] ("x86_64"))
      ∧ (hasCompleteRepos [] [ciTag] ("x86_64") = true ↔
          (([] : List String) ≠ []
            ∨ ∃ ci ∈ [ciTag],
                (ci.arches = none
                    ∨ ∃ a, ci.arches = some a ∧ ("x86_64") ∈ pySplit a)
                  ∧ ci.source_type ≠ 2)) :=
  include_koji_repo_iff none [ciTag] [] [("x86_64")] [] ("x86_64") (by decide)

theorem lookupD_extendAt_self (m : RepoMap) (k : String) (vs : List String) :
    lookupD (extendAt m k vs) k = lookupD m k ++ vs := by
  unfold extendAt lookupD
  rw [lookup_setKey_self]
  rfl

theorem any_extendAt_self (m : RepoMap) (k : String) (vs : List String) :
    (extendAt m k vs).any (fun kv => kv.1 == k) = true := by
  cases hany : (extendAt m k vs).any (fun kv => kv.1 == k) with
  | true => rfl
  | false =>
    have h1 := lookup_of_any_eq_false _ k hany
    have h2 : List.lookup k (extendAt m k vs) = some (lookupD m k ++ vs) :=
      lookup_setKey_self m k (lookupD m k ++ vs)
    rw [h1] at h2
    cases h2

/-- C2 (amended): after forward_composes the mapping has no noarch key
and every raw repo URL appears in the final list of every architecture
present in the mapping; an architecture with no applicable compose never
becomes a key, so requested architectures outside the mapping inherit
nothing. -/
theorem forward_composes_no_noarch_and_urls (cis : List ComposeInfo)
    (repourls : List String) :
    ("noarch") ∉ keysOf (forwardComposes cis repourls)
      ∧ ∀ kv ∈ forwardComposes cis repourls, ∀ u ∈ repourls, u ∈ kv.2 := by
  unfold forwardComposes
  have hany := any_extendAt_self (forwardPhase1 cis) ("noarch") repourls
  constructor
  · intro hmem
    unfold forwardFold at hmem
    rw [hany] at hmem
    simp only [if_true] at hmem
    unfold keysOf at hmem
    rw [List.map_map, List.mem_map] at hmem
    rcases hmem with ⟨kv, hkv, hfst⟩
    rw [List.mem_filter] at hkv
    have hne := bne_iff_ne.mp hkv.2
    exact hne hfst
  · intro kv hkv u hu
    unfold forwardFold at hkv
    rw [hany] at hkv
    simp only [if_true] at hkv
    rw [List.mem_map] at hkv
    rcases hkv with ⟨kv2, _, hkv2⟩
    rw [← hkv2]
    rw [List.mem_append]
    right
    rw [lookupD_extendAt_self]
    rw [List.mem_append]
    right
    exact hu

/-- C2 counterexample: with one compose declared only for ppc64le and
the requested platforms including x86_64, the supplied raw URL never
reaches the x86_64 list (x86_64 is not even a key), contradicting the
claim that every raw URL appears in every requested architecture's final
list. -/
def ciPpc : ComposeInfo := ⟨5, ("done"), 100000, none, some ("ppc64le"), ("rf"), 1⟩

theorem forward_composes_counterexample :
    ("u") ∈ [("u")]
      ∧ lookupD (forwardComposes [ciPpc] [("u")]) ("x86_64") = []
      ∧ ("u") ∉ lookupD (forwardComposes [ciPpc] [("u")]) ("x86_64")
      ∧ ("u") ∈ lookupD (forwardComposes [ciPpc] [("u")]) ("ppc64le") := by decide

/-- C2 witness: the amended theorem instantiated at the counterexample
scenario: ppc64le, the only key, receives the raw URL. -/
theorem forward_composes_no_noarch_and_urls_witness :
    ("noarch") ∉ keysOf (forwardComposes [ciPpc] [("u")])
      ∧ ((("ppc64le"), [("rf"), ("u")]) ∈ forwardComposes [ciPpc] [("u")] →
          ("u") ∈ [("rf"), ("u")]) :=
  ⟨(forward_composes_no_noarch_and_urls [ciPpc] [("u")]).1,
    fun hmem => (forward_composes_no_noarch_and_urls [ciPpc] [("u")]).2
      (("ppc64le"), [("rf"), ("u")]) hmem ("u") (by decide)⟩

theorem keysOf_pulpFromData_aux (arches : List String) :
    ∀ (pd : List (String × List String)) (p : List (String × Finset String)),
      (∀ k ∈ keysOf p, k ∈ arches) →
      ∀ k ∈ keysOf (pd.foldl
          (fun p kv => if kv.1 ∈ arches then setKey p kv.1 kv.2.toFinset else p) p),
        k ∈ arches := by
  intro pd
  induction pd with
  | nil =>
    intro p hp k hk
    exact hp k hk
  | cons kv rest ih =>
    intro p hp k hk
    rw [List.foldl_cons] at hk
    by_cases hc : kv.1 ∈ arches
    · rw [if_pos hc] at hk
      refine ih _ ?_ k hk
      intro k2 hk2
      rcases keysOf_setKey_mem p kv.1 k2 kv.2.toFinset hk2 with h | h
      · exact hp k2 h
      · rw [h]
        exact hc
    · rw [if_neg hc] at hk
      exact ih p hp k hk

theorem keysOf_pulpFromData (pulpData : List (String × List String))
    (arches : List String) (k : String)
    (h : k ∈ keysOf (pulpFromData pulpData arches)) : k ∈ arches :=
  keysOf_pulpFromData_aux arches pulpData [] (fun _ hk => absurd hk (by simp [keysOf])) k h

theorem keysOf_applyBocs :
    ∀ (bocs : List (String × List String)) (p : List (String × Finset String)) (k : String),
      k ∈ keysOf (applyBuildOnlyContentSets bocs p) →
        k ∈ keysOf p ∨ k ∈ bocs.map Prod.fst := by
  intro bocs
  induction bocs with
  | nil =>
    intro p k h
    exact Or.inl h
  | cons kv rest ih =>
    intro p k h
    have step : applyBuildOnlyContentSets (kv :: rest) p
        = applyBuildOnlyContentSets rest
            (setKey p kv.1 (kv.2.toFinset ∪ ((List.lookup kv.1 p).getD ∅))) := rfl
    rw [step] at h
    rcases ih _ k h with h2 | h2
    · rcases keysOf_setKey_mem _ _ _ _ h2 with h3 | h3
      · exact Or.inl h3
      · right
        rw [List.map_cons, List.mem_cons]
        exact Or.inl h3
    · right
      rw [List.map_cons, List.mem_cons]
      exact Or.inr h2

theorem lookup_applyBocs_notin :
    ∀ (bocs : List (String × List String)) (p : List (String × Finset String)) (k : String),
      k ∉ bocs.map Prod.fst →
      List.lookup k (applyBuildOnlyContentSets bocs p) = List.lookup k p := by
  intro bocs
  induction bocs with
  | nil =>
    intro p k _
    rfl
  | cons kv rest ih =>
    intro p k h
    rw [List.map_cons, List.mem_cons] at h
    push_neg at h
    have step : applyBuildOnlyContentSets (kv :: rest) p
        = applyBuildOnlyContentSets rest
            (setKey p kv.1 (kv.2.toFinset ∪ ((List.lookup kv.1 p).getD ∅))) := rfl
    rw [step, ih _ k h.2, lookup_setKey_other p kv.1 k _ h.1]

theorem lookup_applyBocs :
    ∀ (bocs : List (String × List String)) (p : List (String × Finset String))
      (k : String) (cs : List String),
      (bocs.map Prod.fst).Nodup → (k, cs) ∈ bocs →
      List.lookup k (applyBuildOnlyContentSets bocs p)
        = some (cs.toFinset ∪ (List.lookup k p).getD ∅) := by
  intro bocs
  induction bocs with
  | nil =>
    intro p k cs _ hmem
    cases hmem
  | cons kv rest ih =>
    intro p k cs hnd hmem
    cases kv with
    | mk k1 cs1 =>
      rw [List.map_cons, List.nodup_cons] at hnd
      have step : applyBuildOnlyContentSets ((k1, cs1) :: rest) p
          = applyBuildOnlyContentSets rest
              (setKey p k1 (cs1.toFinset ∪ ((List.lookup k1 p).getD ∅))) := rfl
      rw [step]
      rcases List.mem_cons.mp hmem with h | h
      · have hk : k = k1 := congrArg Prod.fst h
        have hcs : cs = cs1 := congrArg Prod.snd h
        subst hk
        subst hcs
        rw [lookup_applyBocs_notin rest _ k hnd.1]
        exact lookup_setKey_self p k _
      · have hkne : k ≠ k1 := by
          intro hk
          apply hnd.1
          rw [← hk]
          rw [List.mem_map]
          exact ⟨(k, cs), h, rfl⟩
        rw [ih _ k cs hnd.2 h, lookup_setKey_other p k1 k _ hkne]

/-- C8 (amended): with pulp repos enabled, every architecture key of the
resulting pulp mapping is either in the requested architecture set or
named by build_only_content_sets (which the source does not filter
against the requested set), and each build_only_content_sets entry is
unioned into that architecture's content sets. -/
theorem pulp_keys_and_build_only_union (data : ComposeData)
    (pulpData : List (String × List String)) (arches : List String)
    (hp : data.pulp_repos = true) :
    (∀ k ∈ keysOf (buildPulp data pulpData arches),
        k ∈ arches ∨ k ∈ data.build_only_content_sets.map Prod.fst)
      ∧ ((data.build_only_content_sets.map Prod.fst).Nodup →
          ∀ k cs, (k, cs) ∈ data.build_only_content_sets →
            List.lookup k (buildPulp data pulpData arches)
              = some (cs.toFinset
                  ∪ (List.lookup k (pulpFromData pulpData arches)).getD ∅)) := by
  unfold buildPulp
  rw [hp]
  simp only [if_true]
  constructor
  · intro k hk
    rcases keysOf_applyBocs data.build_only_content_sets _ k hk with h | h
    · exact Or.inl (keysOf_pulpFromData pulpData arches k h)
    · exact Or.inr h
  · intro hnd k cs hmem
    exact lookup_applyBocs data.build_only_content_sets _ k cs hnd hmem

/-- C8 counterexample: pulp repos enabled, requested architectures only
x86_64, build_only_content_sets names s390x; the resulting pulp mapping
carries the key s390x, which is not a member of the requested set,
contradicting the claim. -/
def dataBocs : ComposeData :=
  { pulp_repos := true, build_only_content_sets := [(("s390x"), [("cs1")])] }

theorem pulp_keys_counterexample :
    ("s390x") ∈ keysOf (buildPulp dataBocs [] [("x86_64")])
      ∧ ("s390x") ∉ ([("x86_64")] : List String) := by decide

/-- C8 witness: the amended theorem instantiated at the counterexample
scenario. -/
theorem pulp_keys_and_build_only_union_witness :
    List.lookup ("s390x") (buildPulp dataBocs [] [("x86_64")])
      = some ((([("cs1")] : List String)).toFinset
          ∪ (List.lookup ("s390x") (pulpFromData [] [("x86_64")])).getD ∅) :=
  (pulp_keys_and_build_only_union dataBocs [] [("x86_64")] rfl).2 (by decide)
    ("s390x") [("cs1")] (by decide)

theorem skipYum_foldl (urls : List String) :
    ∀ (ps : List String) (m : RepoMap),
      (∀ p ∈ ps, m.any (fun kv => kv.1 == p) = false) → ps.Nodup →
      ps.foldl (fun m p => extendAt m p urls) m = m ++ ps.map (fun p => (p, urls)) := by
  intro ps
  induction ps with
  | nil =>
    intro m _ _
    simp
  | cons p rest ih =>
    intro m hfresh hnd
    rw [List.foldl_cons]
    rw [List.nodup_cons] at hnd
    have hpm : m.any (fun kv => kv.1 == p) = false := hfresh p (List.mem_cons_self _ _)
    have hext : extendAt m p urls = m ++ [(p, urls)] := by
      unfold extendAt setKey
      rw [hpm]
      simp only [Bool.false_eq_true, if_false]
      unfold lookupD
      rw [lookup_of_any_eq_false m p hpm]
      rfl
    rw [hext]
    have hfresh2 : ∀ q ∈ rest, (m ++ [(p, urls)]).any (fun kv => kv.1 == q) = false := by
      intro q hq
      rw [List.any_append, Bool.or_eq_false_iff]
      refine ⟨hfresh q (List.mem_cons_of_mem _ hq), ?_⟩
      simp only [List.any_cons, List.any_nil, Bool.or_false]
      cases hpq : p == q
      · rfl
      · exfalso
        apply hnd.1
        rw [eq_of_beq hpq]
        exact hq
    rw [ih (m ++ [(p, urls)]) hfresh2 hnd.2, List.map_cons, List.append_assoc]
    rfl

theorem keysOf_map_pair {β : Type} (l : List String) (g : String → β) :
    keysOf (l.map fun p => (p, g p)) = l := by
  induction l with
  | nil => rfl
  | cons p rest ih =>
    rw [List.map_cons]
    unfold keysOf at ih ⊢
    rw [List.map_cons, ih]

theorem skipYum_eq (platforms urls : List String) (hnd : platforms.Nodup) :
    skipYum platforms urls = platforms.map (fun p => (p, urls)) := by
  unfold skipYum
  rw [skipYum_foldl urls platforms [] (fun p _ => rfl) hnd]
  rfl

/-- C9 (amended): under either skip condition (no ODCS backend, or no
compose section and no explicit ids) run returns normally with an empty
compose list and every requested platform mapped to exactly the raw repo
URLs, but the signing_intent field of the result is none (null), not a
string, because no ComposeConfig was built on this path. -/
theorem run_skip_passthrough (env : Env) (inp : RunInputs)
    (hskip : inp.odcsConfigPresent = false
      ∨ (inp.composeData = none ∧ inp.allComposeIds = []))
    (hnd : inp.platforms.Nodup) :
    run env inp = RunOutcome.ok
        (makeResult none [] (skipYum inp.platforms inp.repourls) inp.platforms inp.repourls)
      ∧ (makeResult none [] (skipYum inp.platforms inp.repourls) inp.platforms
          inp.repourls).composes = []
      ∧ (makeResult none [] (skipYum inp.platforms inp.repourls) inp.platforms
          inp.repourls).signing_intent = none
      ∧ keysOf (skipYum inp.platforms inp.repourls) = inp.platforms
      ∧ ∀ p ∈ inp.platforms, lookupD (skipYum inp.platforms inp.repourls) p = inp.repourls := by
  refine ⟨?_, rfl, rfl, ?_, ?_⟩
  · unfold run
    have hcond : (!inp.odcsConfigPresent
        || (inp.composeData.isNone && inp.allComposeIds.isEmpty)) = true := by
      rcases hskip with h | ⟨h1, h2⟩
      · rw [h]
        rfl
      · rw [h1, h2]
        simp
    rw [if_pos hcond]
  · rw [skipYum_eq _ _ hnd]
    exact keysOf_map_pair inp.platforms (fun _ => inp.repourls)
  · intro p hp
    rw [skipYum_eq _ _ hnd]
    unfold lookupD
    rw [lookup_map_pair inp.platforms (fun _ => inp.repourls) p hp]
    rfl

/-- C9 counterexample: a concrete skip-path run returns normally with
the pass-through mapping, but its signing_intent is not a string: the
field is none. -/
def inpSkip : RunInputs := { platforms := [("x86_64")], repourls := [("u")] }

def resSkip : ResolveComposesResult :=
  makeResult none [] (skipYum [("x86_64")] [("u")]) [("x86_64")] [("u")]

theorem run_skip_signing_intent_counterexample :
    run envBase inpSkip = RunOutcome.ok resSkip
      ∧ resSkip.signing_intent.isSome = false := by
  exact ⟨rfl, rfl⟩

/-- C9 witness: the amended theorem instantiated at the concrete
skip-path run. -/
theorem run_skip_passthrough_witness :
    run envBase inpSkip = RunOutcome.ok
      (makeResult none [] (skipYum inpSkip.platforms inpSkip.repourls) inpSkip.platforms
        inpSkip.repourls) :=
  (run_skip_passthrough envBase inpSkip (Or.inr ⟨rfl, rfl⟩) (by decide)).1

end ResolveComposes
